import Mathlib

/-!
# Hydromatic telemetry subsystem: a verification development

Shallow embedding of the hydromatic firmware's telemetry triad — the Log
Store (`Logger`), the Time Authority (`TimeManager`) and the Log Shipper
(`NetworkLogger`) — translated from the C++ sources, together with proofs
about sequencing, rotation, timestamp reconstruction, backoff and the
shipper's delivery cycle.

Modelling conventions:
* machine integers are `Nat`/`Int`; 32-bit wraparound is written explicitly
  (`% 2 ^ 32`) where the C code relies on it;
* C strings are `String` (messages are ASCII in practice, so bytes = chars);
* file systems and the JSON wire format are modelled by the lists of lines /
  records the code manipulates; the external JSON library's judgments
  (entry parse, ack validity) are abstracted as function parameters;
* `millis()` and `time(nullptr)` samples are passed in as explicit inputs.
-/

namespace Hydromatic

/-! ## 32-bit arithmetic helpers (ESP32: `uint32_t`, 32-bit `size_t`) -/

/-- Reduce a natural number into the `uint32_t` range. -/
def u32 (n : Nat) : Nat := n % 2 ^ 32

/-- `uint32_t` subtraction `a - b` (wraps modulo `2^32`), as in
`entry_uptime_ms - sync_uptime_ms` in `NetworkLogger::calculateTimestamp`. -/
def usub32 (a b : Nat) : Nat := (a % 2 ^ 32 + 2 ^ 32 - b % 2 ^ 32) % 2 ^ 32

/-- Reinterpret a `uint32_t` value as `int32_t` (two's complement), as in the
cast `int32_t uptime_delta_ms = entry_uptime_ms - sync_uptime_ms`. -/
def toInt32 (n : Nat) : Int :=
  if n % 2 ^ 32 < 2 ^ 31 then (n % 2 ^ 32 : Nat) else (n % 2 ^ 32 : Nat) - 2 ^ 32

/-! ## Time Authority: NTP anchor history (`TimeManager`, part_006)

The persisted synchronization-anchor store `/data/ntp_history.json` is the
JSON array `boots`; each element has fields `boot_seq`, `ntp_sync_time`,
`sync_uptime_ms`. We model it as a `List NTPAnchor` in file order. -/

/-- One element of the `boots` array of `/data/ntp_history.json`. -/
structure NTPAnchor where
  boot_seq : Nat
  ntp_sync_time : Int
  sync_uptime_ms : Nat
  deriving DecidableEq, Repr

/-- `TimeManager::getNTPHistoryForBoot`: linear scan of the `boots` array for
the first element whose `boot_seq` matches; returns its
`(ntp_sync_time, sync_uptime_ms)` or fails. -/
def getNTPHistoryForBoot (hist : List NTPAnchor) (boot_seq : Nat) :
    Option (Int × Nat) :=
  match hist with
  | [] => none
  | a :: rest =>
    if a.boot_seq = boot_seq then some (a.ntp_sync_time, a.sync_uptime_ms)
    else getNTPHistoryForBoot rest boot_seq

/-- `NetworkLogger::calculateTimestamp` (README part, lines 397–433), up to the
final ISO-8601 formatting: looks up the anchor for `boot_seq`; absent →
`none` (the caller emits a JSON `null` timestamp); present → the epoch value
`ntp_sync_time + uptime_delta_ms / 1000` where `uptime_delta_ms` is the
`uint32_t` difference reinterpreted as `int32_t` and the division is C `/`
on `int32_t`, i.e. truncation toward zero (`Int.tdiv`). -/
def calculateTimestamp (hist : List NTPAnchor) (boot_seq : Nat)
    (entry_uptime_ms : Nat) : Option Int :=
  match getNTPHistoryForBoot hist boot_seq with
  | none => none
  | some (t, s) => some (t + Int.tdiv (toInt32 (usub32 entry_uptime_ms s)) 1000)

/-- The first half of `TimeManager::updateNTPHistory`: scan the `boots` array
for an element with the given `boot_seq` and overwrite its fields in place;
if none matches, append a fresh element at the end. -/
def upsertBoot (hist : List NTPAnchor) (b : Nat) (t : Int) (u : Nat) :
    List NTPAnchor :=
  match hist with
  | [] => [⟨b, t, u⟩]
  | a :: rest =>
    if a.boot_seq = b then ⟨b, t, u⟩ :: rest
    else a :: upsertBoot rest b t u

/-- The second half of `TimeManager::updateNTPHistory`:
`while (boots.size() > MAX_BOOT_HISTORY) boots.remove(0)` — repeatedly drop
the oldest element until at most `max` remain. -/
def dropToMax (max : Nat) (hist : List NTPAnchor) : List NTPAnchor :=
  hist.drop (hist.length - max)

/-- `TimeManager::updateNTPHistory` (part_006, lines 1144–1208):
upsert-by-generation, then evict oldest entries past the configured maximum,
then persist. -/
def updateNTPHistory (max : Nat) (hist : List NTPAnchor) (b : Nat) (t : Int)
    (u : Nat) : List NTPAnchor :=
  dropToMax max (upsertBoot hist b t u)

/-! ## Time Authority: confidence state and `getTime` (part_006, 818–913) -/

/-- `TimeConfidenceState` from the `TimeManager` header. -/
inductive TimeConfidenceState where
  | TIME_CONFIDENT
  | TIME_UNCONFIDENT
  deriving DecidableEq, Repr

/-- The mutex-guarded fields of `TimeManager` that `getTime` and
`isTimeConfident` read, plus the configured confidence window. -/
structure TimeState where
  confidence_state : TimeConfidenceState
  last_sync_time : Int
  compile_time : Int
  confidence_window_hours : Nat
  deriving DecidableEq, Repr

/-- `TimeManager::getTime` (part_006, lines 818–839). `lockOk` is the outcome
of `xSemaphoreTake(time_mutex, 100ms)`; `live` is the value `time(nullptr)`
would return at this instant. With the lock held: the live clock when the
state is `TIME_CONFIDENT`, else the `compile_time` fallback. On lock
timeout: the live clock if nonzero, else the fallback. The function reads
neither `last_sync_time` nor `confidence_window_hours`. -/
def getTime (lockOk : Bool) (st : TimeState) (live : Int) : Int :=
  if lockOk then
    if st.confidence_state = TimeConfidenceState.TIME_CONFIDENT then live
    else st.compile_time
  else if live ≠ 0 then live else st.compile_time

/-- `TimeManager::isTimeConfident` (part_006, lines 894–913): requires the
state flag to be `TIME_CONFIDENT` and, when a window is configured, the
elapsed `(now - last_sync_time) / 3600` hours (C `time_t` division, then the
cast to `uint32_t`) not to exceed `confidence_window_hours`. On lock timeout
the function returns `false`. -/
def isTimeConfident (lockOk : Bool) (st : TimeState) (now : Int) : Bool :=
  if lockOk then
    (st.confidence_state = TimeConfidenceState.TIME_CONFIDENT) &&
      (if 0 < st.confidence_window_hours then
        ((Int.tdiv (now - st.last_sync_time) 3600).emod (2 ^ 32)).toNat
          ≤ st.confidence_window_hours
      else true)
  else false

/-- Modelled from the spec (claim wording, §4.2 `now()`): what the spec says
`getTime` does — return the live clock only when `CONFIDENT` *and* within
the confidence window, else the fallback; same lock-timeout behaviour as the
code. Written to compare with `getTime` above. -/
def getTimeClaimed (lockOk : Bool) (st : TimeState) (live now : Int) : Int :=
  if lockOk then
    if st.confidence_state = TimeConfidenceState.TIME_CONFIDENT ∧
        ((Int.tdiv (now - st.last_sync_time) 3600).emod (2 ^ 32)).toNat
          ≤ st.confidence_window_hours then
      live
    else st.compile_time
  else if live ≠ 0 then live else st.compile_time

/-! ## Log Store (`Logger`, src/logger.cpp)

The ledger `/data/active.log` holds one JSON record per line. Two views are
used: a record-level view (`LogRecord`, for sequencing claims) and a
line-level view (`List String`, for byte-size rotation claims). -/

/-- `Logger::MAX_MESSAGE_SIZE` (logger.h line 186). -/
def MAX_MESSAGE_SIZE : Nat := 512

/-- The fields of one ledger record that the claims are about
(`boot_seq`, `uptime_ms`, `seq`, `level`, `msg`; the nested `system`
resource snapshot plays no role in any claim and is omitted). -/
structure LogRecord where
  boot_seq : Nat
  uptime_ms : Nat
  seq : Nat
  level : String
  msg : String
  deriving DecidableEq, Repr

/-- Byte-truncation of a C string buffer: keep the first `n` characters
(the sources format ASCII messages, so bytes and characters coincide). -/
def strTake (s : String) (n : Nat) : String := String.mk (s.data.take n)

/-- The `sample` buffer built in `Logger::log` for the truncation follow-up:
`strncpy(sample, message, 60)` then `"..."` — the first 60 characters of the
(already truncated) message followed by an ellipsis. -/
def truncSample (storedMsg : String) : String := strTake storedMsg 60 ++ "..."

/-- The follow-up error message `"Log entry truncated (%d chars), sample: %s"`
formatted with the `vsnprintf` return value `len` (the full formatted
length) and the sample. -/
def truncFollowupMsg (len : Nat) (storedMsg : String) : String :=
  "Log entry truncated (" ++ toString len ++ " chars), sample: " ++
    truncSample storedMsg

/-- Per-append environment for one pass of `Logger::log`: the `millis()`
sample, whether `appendToLog` succeeds (mutex acquired and file writable —
on failure the write is dropped but the sequence counter still advances),
and the prefix of oldest records that the rotation check performed inside
`getSystemStats` removes before this entry is appended (0 when the ledger is
below the high-water mark; `checkAndRotateLog` is proved separately, on the
line-level view, to remove exactly a prefix). -/
structure EmitEnv where
  now : Nat
  appendOk : Bool
  pruneK : Nat
  deriving DecidableEq, Repr

/-- Environment for one `Logger::log` call: one `EmitEnv` for the main record
and one for the possible truncation follow-up record (which is a recursive
`logError` call and gets its own rotation check and `millis()` sample). -/
structure LogEnv where
  main : EmitEnv
  followup : EmitEnv
  deriving DecidableEq, Repr

/-- Record-level `Logger` state: the current boot generation, the intra-boot
sequence counter and the ledger lines as records. -/
structure LoggerState where
  boot_seq : Nat
  entry_seq : Nat
  ledger : List LogRecord
  deriving DecidableEq, Repr

/-- One pass of `Logger::log` without the truncation follow-up: format the
message into the 513-byte buffer (`vsnprintf` keeps the first
`MAX_MESSAGE_SIZE` characters), run the rotation check, append the record
under the ledger mutex (dropped on `appendOk = false`), and increment
`entry_seq` unconditionally. Returns the new state and the record if it was
written. -/
def emitRecord (st : LoggerState) (e : EmitEnv) (level msg : String) :
    LoggerState × Option LogRecord :=
  let stored := strTake msg MAX_MESSAGE_SIZE
  let r : LogRecord :=
    ⟨st.boot_seq, e.now, st.entry_seq, level, stored⟩
  let pruned := st.ledger.drop e.pruneK
  ⟨⟨st.boot_seq, st.entry_seq + 1,
      if e.appendOk then pruned ++ [r] else pruned⟩,
    if e.appendOk then some r else none⟩

/-- `Logger::log` (logger.cpp, lines 189–243): emit the record; then, exactly
when the formatted message was truncated (`len >= MAX_MESSAGE_SIZE`) *and*
the level is not `"error"`, emit one follow-up error record via `logError`.
The recursive call carries level `"error"`, so its own
`truncated && strcmp(level, "error") != 0` guard is false whatever its
length — one unfolding is exact. Returns the new state and the records
written by this call. -/
def logCall (st : LoggerState) (env : LogEnv) (level msg : String) :
    LoggerState × List LogRecord :=
  let p1 := emitRecord st env.main level msg
  if MAX_MESSAGE_SIZE ≤ msg.length ∧ level ≠ "error" then
    let p2 := emitRecord p1.1 env.followup "error"
      (truncFollowupMsg msg.length (strTake msg MAX_MESSAGE_SIZE))
    ⟨p2.1, p1.2.toList ++ p2.2.toList⟩
  else ⟨p1.1, p1.2.toList⟩

/-- Run a sequence of `Logger::log` calls (environment, level, message
triples), collecting the records written. -/
def runLogs (st : LoggerState) :
    List (LogEnv × String × String) → LoggerState × List LogRecord
  | [] => ⟨st, []⟩
  | c :: rest =>
    let p := logCall st c.1 c.2.1 c.2.2
    let q := runLogs p.1 rest
    ⟨q.1, p.2 ++ q.2⟩

/-! ### Line-level rotation (`checkAndRotateLog` / `pruneOldestEntries`)

The ledger file is modelled as its list of non-empty lines, each including
its trailing `'\n'` (as rebuilt by `pruneOldestEntries`); the file size is
the sum of the line lengths. -/

/-- Total byte size of the ledger lines. -/
def sumLens (lines : List String) : Nat :=
  (lines.map String.length).sum

/-- The skip loop of `Logger::pruneOldestEntries`:
`while (skipped_size < need && skip_count < lines.size())` — the number of
leading lines consumed before the skipped bytes reach `need`. -/
def computeSkip (sizes : List Nat) (need : Nat) : Nat :=
  match sizes with
  | [] => 0
  | l :: ls => if need = 0 then 0 else computeSkip ls (need - l) + 1

/-- The number of leading lines `Logger::pruneOldestEntries` removes: the
skip loop consumes oldest lines until the skipped bytes reach the `size_t`
difference `current_size - target_size` (32-bit `size_t` on this target),
then `if (skip_count >= lines.size() && lines.size() > 0)` clamps to keep
at least one line. -/
def pruneSkipCount (target_size : Nat) (lines : List String) : Nat :=
  let k := computeSkip (lines.map String.length)
    (usub32 (sumLens lines) target_size)
  if lines.length ≤ k ∧ 0 < lines.length then lines.length - 1 else k

/-- `Logger::pruneOldestEntries` (logger.cpp, lines 310–361): read the lines,
skip the oldest `pruneSkipCount` of them, rewrite the file with the
remaining lines in order. -/
def pruneOldestEntries (target_size : Nat) (lines : List String) :
    List String :=
  lines.drop (pruneSkipCount target_size lines)

/-- The high-water mark `(size_t)(total * ROTATION_THRESHOLD)` with
`ROTATION_THRESHOLD = 0.8f`, i.e. 80 % of the SPIFFS capacity. Modelled as
`4 * total / 5`; for the capacities used in the witnesses (multiples of 5,
well inside `float` precision) the two agree exactly. -/
def rotationThreshold (total : Nat) : Nat := 4 * total / 5

/-- `Logger::checkAndRotateLog` (logger.cpp, lines 282–308): if the ledger
size exceeds the 80 % high-water mark, prune to half that mark. -/
def checkAndRotateLog (total : Nat) (lines : List String) : List String :=
  if rotationThreshold total < sumLens lines then
    pruneOldestEntries (rotationThreshold total / 2) lines
  else lines

/-! ### Record-level store operations (for the sequencing invariant)

Besides `Logger::log` appends, the only operations that ever touch live
ledger records are `NetworkLogger`-driven `deleteFirstEntry` and the
rotation prune, both of which remove records from the front. -/

/-- An operation on the ledger record list. -/
inductive StoreOp where
  | append (r : LogRecord)
  | deleteFirst
  | prune (k : Nat)
  deriving DecidableEq, Repr

/-- Apply one store operation: `append` writes at the end
(`FILE_APPEND`), `deleteFirst` removes the first record
(`Logger::deleteFirstEntry`, a no-op on an empty ledger), `prune k` drops
the `k` oldest records (`pruneOldestEntries`). -/
def applyOp (l : List LogRecord) : StoreOp → List LogRecord
  | StoreOp.append r => l ++ [r]
  | StoreOp.deleteFirst => l.tail
  | StoreOp.prune k => l.drop k

/-- Run a sequence of store operations from an initial ledger. -/
def runOps (l : List LogRecord) (ops : List StoreOp) : List LogRecord :=
  ops.foldl applyOp l

/-- The records appended across a sequence of store operations, in order. -/
def appendedRecords (ops : List StoreOp) : List LogRecord :=
  ops.filterMap fun op =>
    match op with
    | StoreOp.append r => some r
    | _ => none

/-! ## Log Shipper (`NetworkLogger`, README part, lines 76–692)

One `NetworkLogger::handle` invocation is modelled as a pure function of the
shipper state and a cycle environment carrying the outcomes of the external
interactions (connection attempt, socket writes, and the ack lines that
arrive within the ack-timeout window). The external JSON library's
judgments are abstracted as parameters: `parseEntry` (deserialization of a
ledger line, yielding its `boot_seq` and `uptime_ms` on success) and
`validAck` (whether a received line parses to `{"ack": 1}`).
`checkForCommands` (inbound `{"cmd": ...}` handling) touches neither the
ledger nor the backoff state and is not modelled. -/

/-- The `retry_backoff_ms[3]` array. -/
structure BackoffTable where
  b0 : Nat
  b1 : Nat
  b2 : Nat
  deriving DecidableEq, Repr

/-- The constructor defaults `{5000, 10000, 30000}` (network_logger part,
lines 106–108). -/
def defaultBackoffTable : BackoffTable := ⟨5000, 10000, 30000⟩

/-- `retry_backoff_ms[i]`, total on the index (the code only reads indices
0–2; reading at 3 happens in the `else` branch which uses entry 2). -/
def backoffDelay (t : BackoffTable) (i : Nat) : Nat :=
  if i = 0 then t.b0 else if i = 1 then t.b1 else t.b2

/-- The in-memory delivery state of `NetworkLogger`, plus the ledger lines it
drains (held by `Logger` on flash; included here because the cycle reads
and deletes through `Logger`'s interface). -/
structure ShipperState where
  is_connected : Bool
  retry_index : Nat
  next_retry_time : Nat
  last_send_time : Nat
  ledger : List String
  deriving DecidableEq, Repr

/-- `NetworkLogger::applyBackoff` (lines 661–674): take the delay at
`retry_index` and advance the index while `retry_index < 3`; past the table,
stay at the maximum delay. -/
def applyBackoff (t : BackoffTable) (now : Nat) (st : ShipperState) :
    ShipperState :=
  if st.retry_index < 3 then
    { st with retry_index := st.retry_index + 1,
              next_retry_time := now + backoffDelay t st.retry_index }
  else { st with next_retry_time := now + t.b2 }

/-- `NetworkLogger::resetBackoff` (lines 676–680). -/
def resetBackoff (st : ShipperState) : ShipperState :=
  { st with retry_index := 0, next_retry_time := 0 }

/-- `NetworkLogger::waitForAck` (lines 467–496): false when not connected;
otherwise scan the lines arriving within the ack-timeout window and succeed
as soon as one parses as a valid `{"ack": 1}` — a malformed line is skipped,
so malformed-only traffic times out exactly like silence. -/
def waitForAck (validAck : String → Bool) (conn : Bool)
    (ackLines : List String) : Bool :=
  conn && ackLines.any validAck

/-- One line written to the collector socket during a cycle. -/
inductive WireSend where
  | entry (raw : String) (ts : Option Int)
  | heartbeat (ts : Option Int)
  | diagnostic (msg : String) (ts : Option Int)
  deriving DecidableEq, Repr

/-- `raw_entry.substring(0, 100)` plus `"..."` when longer than 100, from
`NetworkLogger::handleCorruptedEntry` (lines 624–629). -/
def corruptTrunc (raw : String) : String :=
  strTake raw 100 ++ (if 100 < raw.length then "..." else "")

/-- The `msg` field of the diagnostic record synthesized for a corrupted
ledger line (line 643). -/
def corruptedMsg (raw : String) : String :=
  "Corrupted log entry detected and skipped: " ++ corruptTrunc raw

/-- Configuration read by the shipper cycle. -/
structure ShipperConfig where
  tbl : BackoffTable
  heartbeat_interval_ms : Nat
  deriving DecidableEq, Repr

/-- Outcomes of the external interactions of one `handle` cycle. `readOk`
is the ledger-mutex acquisition in `readFirstEntry` (on timeout the cycle
behaves as if no entry were pending); `connectOk` the result of
`connectToServer` if attempted; `sendOk` whether the socket write of the
entry line completes; `ackLines` / `hbAckLines` the inbound lines within
the ack window after the entry / heartbeat send; `hbSendOk` the heartbeat
socket write. -/
structure CycleEnv where
  now : Nat
  readOk : Bool
  connectOk : Bool
  sendOk : Bool
  ackLines : List String
  hbSendOk : Bool
  hbAckLines : List String
  deriving DecidableEq, Repr

/-- `NetworkLogger::handle` (README part, lines 142–243), one cycle:
1. skip while inside a backoff window;
2. ensure the TCP connection, applying backoff on a failed attempt and
   resetting backoff and the heartbeat timer on a fresh connection;
3. with a pending ledger line: on parse failure, synthesize one diagnostic
   wrapping the truncated raw line (`handleCorruptedEntry` — its
   `waitForAck` result is discarded, which is why the outcome does not
   depend on `ackLines`), delete the line, end the cycle; on parse success,
   stamp via `calculateTimestamp`, send, and wait for the ack — ack means
   delete + reset backoff + record activity, anything else means backoff
   plus a forced disconnect, with the ledger untouched;
4. with nothing pending: heartbeat when the idle interval elapsed, with the
   same ack rules (never persisted).
`Logger::deleteFirstEntry` is modelled as succeeding: the ledger is
non-empty at every call site, and its only failure mode is a ledger-mutex
timeout, which merely defers the deletion (the code logs a warning and the
record is retransmitted on a later cycle). -/
def handleCycle (cfg : ShipperConfig) (parseEntry : String → Option (Nat × Nat))
    (validAck : String → Bool) (hist : List NTPAnchor) (bootSeq : Nat)
    (env : CycleEnv) (st : ShipperState) : ShipperState × List WireSend :=
  if 0 < st.next_retry_time ∧ env.now < st.next_retry_time then ⟨st, []⟩
  else if st.is_connected = false ∧ env.connectOk = false then
    ⟨applyBackoff cfg.tbl env.now st, []⟩
  else
    let st1 := if st.is_connected then st
      else resetBackoff { st with is_connected := true,
                                  last_send_time := env.now }
    match (if env.readOk then st1.ledger.head? else none) with
    | some e =>
      match parseEntry e with
      | none =>
        ⟨{ st1 with ledger := st1.ledger.tail },
          [WireSend.diagnostic (corruptedMsg e)
            (calculateTimestamp hist bootSeq env.now)]⟩
      | some (b, u) =>
        let ts := calculateTimestamp hist b u
        if env.sendOk then
          if waitForAck validAck true env.ackLines then
            ⟨resetBackoff { st1 with ledger := st1.ledger.tail,
                                     last_send_time := env.now },
              [WireSend.entry e ts]⟩
          else
            ⟨applyBackoff cfg.tbl env.now { st1 with is_connected := false },
              [WireSend.entry e ts]⟩
        else
          ⟨applyBackoff cfg.tbl env.now { st1 with is_connected := false },
            [WireSend.entry e ts]⟩
    | none =>
      let ls := if st1.last_send_time = 0 then env.now else st1.last_send_time
      let st2 := { st1 with last_send_time := ls }
      if cfg.heartbeat_interval_ms ≤ env.now - ls then
        let hbts := calculateTimestamp hist bootSeq env.now
        if env.hbSendOk && waitForAck validAck true env.hbAckLines then
          ⟨resetBackoff { st2 with last_send_time := env.now },
            [WireSend.heartbeat hbts]⟩
        else
          ⟨applyBackoff cfg.tbl env.now { st2 with is_connected := false },
            [WireSend.heartbeat hbts]⟩
      else ⟨st2, []⟩

/-! ## Helper lemmas -/

theorem strTake_length (s : String) (n : Nat) :
    (strTake s n).length = min n s.length := by
  cases s with
  | mk data => simp [strTake, String.length, List.length_take]

theorem suffix_append_same {α : Type} {s t : List α} (u : List α)
    (h : s <:+ t) : s ++ u <:+ t ++ u := by
  obtain ⟨w, rfl⟩ := h
  exact ⟨w, (List.append_assoc w s u).symm⟩

theorem drop_length_sub_one {α : Type} :
    ∀ (l : List α) (h : l ≠ []), l.drop (l.length - 1) = [l.getLast h]
  | [], h => absurd rfl h
  | [a], _ => rfl
  | a :: b :: t, _ => by
    have ih := drop_length_sub_one (b :: t) (List.cons_ne_nil b t)
    have h1 : (a :: b :: t).length - 1 = ((b :: t).length - 1) + 1 := by
      simp
    rw [h1, List.drop_succ_cons, ih, List.getLast_cons (List.cons_ne_nil b t)]

theorem computeSkip_le_length (sizes : List Nat) (need : Nat) :
    computeSkip sizes need ≤ sizes.length := by
  induction sizes generalizing need with
  | nil => simp [computeSkip]
  | cons l ls ih =>
    by_cases h : need = 0 <;> simp [computeSkip, h]
    exact ih (need - l)

theorem sum_drop_computeSkip (sizes : List Nat) (need : Nat)
    (h : need ≤ sizes.sum) :
    (sizes.drop (computeSkip sizes need)).sum + need ≤ sizes.sum := by
  induction sizes generalizing need with
  | nil => simp_all [computeSkip]
  | cons l ls ih =>
    by_cases h0 : need = 0
    · simp [computeSkip, h0]
    · have hle : need - l ≤ ls.sum := by
        simp only [List.sum_cons] at h; omega
      have := ih (need - l) hle
      simp only [computeSkip, h0, if_false, List.drop_succ_cons,
        List.sum_cons]
      omega

theorem usub32_eq_sub {a b : Nat} (hb : b ≤ a) (ha : a < 2 ^ 32) :
    usub32 a b = a - b := by
  have hb32 : b < 2 ^ 32 := lt_of_le_of_lt hb ha
  unfold usub32
  rw [Nat.mod_eq_of_lt ha, Nat.mod_eq_of_lt hb32]
  have h1 : a + 2 ^ 32 - b = 2 ^ 32 + (a - b) := by omega
  rw [h1, Nat.add_mod_left, Nat.mod_eq_of_lt (by omega)]

theorem pruneOldestEntries_suffix (target : Nat) (lines : List String) :
    pruneOldestEntries target lines <:+ lines :=
  List.drop_suffix _ _

theorem pruneOldestEntries_ne_nil (target : Nat) (lines : List String)
    (h : lines ≠ []) : pruneOldestEntries target lines ≠ [] := by
  have hlen : 0 < lines.length := List.length_pos.mpr h
  unfold pruneOldestEntries pruneSkipCount
  by_cases hc : lines.length ≤ computeSkip (lines.map String.length)
      (usub32 (sumLens lines) target)
  · simp only [hc, hlen, and_true, if_true]
    rw [drop_length_sub_one lines h]
    simp
  · simp only [hc, false_and, if_false]
    intro hnil
    have := List.drop_eq_nil_iff.mp hnil
    omega

theorem sumLens_drop_le (target : Nat) (lines : List String)
    (htar : target ≤ sumLens lines) (hcur : sumLens lines < 2 ^ 32)
    (hk : computeSkip (lines.map String.length)
      (usub32 (sumLens lines) target) < lines.length ∨ lines = []) :
    sumLens (pruneOldestEntries target lines) ≤ target := by
  rcases hk with hk | rfl
  · have hneed : usub32 (sumLens lines) target = sumLens lines - target :=
      usub32_eq_sub htar hcur
    unfold pruneOldestEntries pruneSkipCount
    simp only [hneed] at hk ⊢
    rw [if_neg (by omega)]
    have hsum := sum_drop_computeSkip (lines.map String.length)
      (sumLens lines - target) (by unfold sumLens; omega)
    unfold sumLens at *
    rw [← List.map_drop] at hsum
    omega
  · simp [pruneOldestEntries, pruneSkipCount, sumLens, computeSkip]

theorem pruneOldestEntries_cases (target : Nat) (lines : List String)
    (htar : target ≤ sumLens lines) (hcur : sumLens lines < 2 ^ 32) :
    sumLens (pruneOldestEntries target lines) ≤ target ∨
      ∃ h : lines ≠ [], pruneOldestEntries target lines = [lines.getLast h] := by
  rcases List.eq_nil_or_concat lines with rfl | _
  · exact Or.inl (sumLens_drop_le target [] htar hcur (Or.inr rfl))
  · have hne : lines ≠ [] := by
      rename_i hcat; obtain ⟨l2, a, rfl⟩ := hcat; simp
    by_cases hk : computeSkip (lines.map String.length)
        (usub32 (sumLens lines) target) < lines.length
    · exact Or.inl (sumLens_drop_le target lines htar hcur (Or.inl hk))
    · refine Or.inr ⟨hne, ?_⟩
      have hlen : 0 < lines.length := List.length_pos.mpr hne
      unfold pruneOldestEntries pruneSkipCount
      rw [if_pos ⟨by omega, hlen⟩]
      exact drop_length_sub_one lines hne

/-- How a burst of `Logger::log` calls evolves the record-level state:
the boot generation is unchanged, the sequence counter only grows, the
resulting ledger is a suffix of the old ledger followed by the records
written (front-only removal, order preserved, no mutation), and the written
records carry fresh, strictly increasing sequence numbers of the current
generation. -/
def CallEvolution (st st2 : LoggerState) (recs : List LogRecord) : Prop :=
  st2.boot_seq = st.boot_seq ∧
  st.entry_seq ≤ st2.entry_seq ∧
  st2.ledger <:+ st.ledger ++ recs ∧
  List.Pairwise (fun r s => r.seq < s.seq) recs ∧
  ∀ r ∈ recs, r.boot_seq = st.boot_seq ∧ st.entry_seq ≤ r.seq ∧
    r.seq < st2.entry_seq

theorem callEvolution_trans {st st2 st3 : LoggerState}
    {recs1 recs2 : List LogRecord} (h1 : CallEvolution st st2 recs1)
    (h2 : CallEvolution st2 st3 recs2) :
    CallEvolution st st3 (recs1 ++ recs2) := by
  obtain ⟨hb1, he1, hs1, hp1, hr1⟩ := h1
  obtain ⟨hb2, he2, hs2, hp2, hr2⟩ := h2
  refine ⟨hb2.trans hb1, he1.trans he2, ?_, ?_, ?_⟩
  · have := suffix_append_same recs2 hs1
    rw [List.append_assoc] at this
    exact hs2.trans this
  · rw [List.pairwise_append]
    refine ⟨hp1, hp2, fun r hr s hs => ?_⟩
    have := (hr1 r hr).2.2
    have := (hr2 s hs).2.1
    omega
  · intro r hr
    rcases List.mem_append.mp hr with h | h
    · obtain ⟨hbr, hsr, hsr2⟩ := hr1 r h
      exact ⟨hbr, hsr, by omega⟩
    · obtain ⟨hbr, hsr, hsr2⟩ := hr2 r h
      exact ⟨by rw [hbr, hb1], by omega, hsr2⟩

theorem emitRecord_evolution (st : LoggerState) (e : EmitEnv)
    (level msg : String) :
    CallEvolution st (emitRecord st e level msg).1
      (emitRecord st e level msg).2.toList := by
  cases hok : e.appendOk
  · have he : emitRecord st e level msg =
        ⟨⟨st.boot_seq, st.entry_seq + 1, st.ledger.drop e.pruneK⟩, none⟩ := by
      simp [emitRecord, hok]
    rw [he]
    refine ⟨rfl, Nat.le_succ _, ?_, List.Pairwise.nil, by simp⟩
    simpa using List.drop_suffix e.pruneK st.ledger
  · have he : emitRecord st e level msg =
        ⟨⟨st.boot_seq, st.entry_seq + 1,
            st.ledger.drop e.pruneK ++
              [⟨st.boot_seq, e.now, st.entry_seq, level,
                strTake msg MAX_MESSAGE_SIZE⟩]⟩,
          some ⟨st.boot_seq, e.now, st.entry_seq, level,
            strTake msg MAX_MESSAGE_SIZE⟩⟩ := by
      simp [emitRecord, hok]
    rw [he]
    refine ⟨rfl, Nat.le_succ _, ?_, by simp, by simp⟩
    exact suffix_append_same _ (List.drop_suffix e.pruneK st.ledger)

theorem logCall_evolution (st : LoggerState) (env : LogEnv)
    (level msg : String) :
    CallEvolution st (logCall st env level msg).1
      (logCall st env level msg).2 := by
  unfold logCall
  by_cases hg : MAX_MESSAGE_SIZE ≤ msg.length ∧ level ≠ "error"
  · rw [if_pos hg]
    exact callEvolution_trans (emitRecord_evolution st env.main level msg)
      (emitRecord_evolution _ env.followup _ _)
  · rw [if_neg hg]
    exact emitRecord_evolution st env.main level msg

theorem runLogs_evolution (st : LoggerState)
    (calls : List (LogEnv × String × String)) :
    CallEvolution st (runLogs st calls).1 (runLogs st calls).2 := by
  induction calls generalizing st with
  | nil =>
    refine ⟨rfl, Nat.le_refl _, ?_, List.Pairwise.nil, by simp [runLogs]⟩
    show st.ledger <:+ st.ledger ++ []
    rw [List.append_nil]
  | cons c rest ih =>
    exact callEvolution_trans (logCall_evolution st c.1 c.2.1 c.2.2)
      (ih (logCall st c.1 c.2.1 c.2.2).1)

/-- `upsertBoot` on a generation already present rewrites that element in
place: the sequence of generations is unchanged. -/
theorem upsertBoot_mem (hist : List NTPAnchor) (b : Nat) (t : Int) (u : Nat)
    (h : b ∈ hist.map NTPAnchor.boot_seq) :
    (upsertBoot hist b t u).map NTPAnchor.boot_seq =
      hist.map NTPAnchor.boot_seq := by
  induction hist with
  | nil => simp at h
  | cons a rest ih =>
    by_cases ha : a.boot_seq = b
    · simp [upsertBoot, ha]
    · have hb : b ∈ rest.map NTPAnchor.boot_seq := by
        simp only [List.map_cons, List.mem_cons] at h
        rcases h with h | h
        · exact absurd h.symm ha
        · exact h
      simp [upsertBoot, ha, ih hb]

/-- `upsertBoot` on a fresh generation appends it at the end. -/
theorem upsertBoot_not_mem (hist : List NTPAnchor) (b : Nat) (t : Int)
    (u : Nat) (h : b ∉ hist.map NTPAnchor.boot_seq) :
    upsertBoot hist b t u = hist ++ [⟨b, t, u⟩] := by
  induction hist with
  | nil => simp [upsertBoot]
  | cons a rest ih =>
    simp only [List.map_cons, List.mem_cons, not_or] at h
    simp [upsertBoot, Ne.symm h.1, ih h.2]

/-- `upsertBoot` preserves distinctness of generations. -/
theorem upsertBoot_nodup (hist : List NTPAnchor) (b : Nat) (t : Int) (u : Nat)
    (h : (hist.map NTPAnchor.boot_seq).Nodup) :
    ((upsertBoot hist b t u).map NTPAnchor.boot_seq).Nodup := by
  by_cases hb : b ∈ hist.map NTPAnchor.boot_seq
  · rw [upsertBoot_mem hist b t u hb]; exact h
  · rw [upsertBoot_not_mem hist b t u hb]
    simp only [List.map_append, List.map_cons, List.map_nil]
    refine List.Nodup.append h (List.nodup_singleton b) ?_
    intro x hx hxs
    have hxb : x = b := by simpa using hxs
    subst hxb
    exact hb hx

/-! ## Claims -/

/-- C1, counterexample: the claim's formula
`anchor.calendar_time + floor((u - anchor.uptime_ms_at_sync) / 1000)` fails
for an entry written 1.5 s *before* the sync instant (the retroactive-stamp
case the spec itself motivates): with anchor (gen 5, T = 1000000,
sync uptime 5000 ms), the code computes `T + trunc(-1.5) = T - 1` where the
floor formula demands `T + (-2) = T - 2`. -/
theorem translateEntryTime_floor_counterexample :
    calculateTimestamp [⟨5, 1000000, 5000⟩] 5 3500 = some 999999 ∧
    (1000000 + Int.fdiv ((3500 : Int) - 5000) 1000 : Int) = 999998 ∧
    (999999 : Int) ≠ 999998 := by
  refine ⟨by decide, by decide, by decide⟩

/-- C1, amended: `calculateTimestamp` returns `none` exactly when no anchor
for the generation exists, and when an anchor `(t, s)` exists it returns
`t` plus the 32-bit uptime delta divided by 1000 with C truncation toward
zero — which coincides with the claim's floor formula whenever the entry's
uptime is at least the anchor's sync uptime (delta below `2^31`), and in
particular gives `translateEntryTime(5, U + 60000) = T + 60`. -/
theorem translateEntryTime_amended (hist : List NTPAnchor) (g u : Nat)
    (t : Int) (s : Nat) :
    (getNTPHistoryForBoot hist g = none →
      calculateTimestamp hist g u = none) ∧
    (getNTPHistoryForBoot hist g = some (t, s) → s ≤ u → u < 2 ^ 32 →
      u - s < 2 ^ 31 →
      calculateTimestamp hist g u = some (t + ((u - s) / 1000 : Nat))) := by
  constructor
  · intro h
    unfold calculateTimestamp
    rw [h]
  · intro h hsu hu hd
    unfold calculateTimestamp
    rw [h]
    show some (t + Int.tdiv (toInt32 (usub32 u s)) 1000) = _
    rw [usub32_eq_sub hsu hu]
    have h2 : toInt32 (u - s) = ((u - s : Nat) : Int) := by
      unfold toInt32
      rw [Nat.mod_eq_of_lt (by omega), if_pos hd]
    rw [h2]
    norm_num [Int.tdiv]

/-- C1, witness: with anchor (gen 5, T = 1700000000, U = 23456 ms), an entry
at uptime U + 60000 stamps to T + 60 s, and generation 6 (no anchor) stamps
to the explicit unknown. -/
theorem translateEntryTime_amended_witness :
    calculateTimestamp [⟨5, 1700000000, 23456⟩] 5 (23456 + 60000) =
      some (1700000000 + 60) ∧
    calculateTimestamp [⟨5, 1700000000, 23456⟩] 6 83456 = none := by
  constructor
  · have h := (translateEntryTime_amended [⟨5, 1700000000, 23456⟩] 5
      (23456 + 60000) 1700000000 23456).2 (by decide) (by decide) (by decide)
      (by decide)
    simpa using h
  · exact (translateEntryTime_amended [⟨5, 1700000000, 23456⟩] 6 83456 0 0).1
      (by decide)

/-- C2, counterexample: with the state flag `TIME_CONFIDENT`, a last sync at
epoch 0, a 24-hour window and the clock at epoch 360000000 (well past the
window — `isTimeConfident` itself reports `false`), `getTime` still returns
the live clock (42), not the boot-time fallback (7) the claim demands. -/
theorem getTime_window_counterexample :
    getTime true ⟨TimeConfidenceState.TIME_CONFIDENT, 0, 7, 24⟩ 42 = 42 ∧
    getTimeClaimed true ⟨TimeConfidenceState.TIME_CONFIDENT, 0, 7, 24⟩ 42
      360000000 = 7 ∧
    isTimeConfident true ⟨TimeConfidenceState.TIME_CONFIDENT, 0, 7, 24⟩
      360000000 = false ∧
    (42 : Int) ≠ 7 := by
  refine ⟨by decide, by decide, by decide, by decide⟩

/-- C2, amended: `getTime` returns the live clock whenever the stored
confidence flag is `CONFIDENT`, *regardless of elapsed time since the last
sync* (its result is invariant under `last_sync_time` and the configured
window — only `isTimeConfident` checks the window); with the flag
`UNCONFIDENT` it returns the fixed boot-time fallback; on lock timeout it
returns the live clock if nonzero, else the fallback. -/
theorem getTime_amended (st : TimeState) (live : Int) (lockOk : Bool)
    (l2 : Int) (w2 : Nat) :
    (getTime true st live =
      if st.confidence_state = TimeConfidenceState.TIME_CONFIDENT then live
      else st.compile_time) ∧
    (getTime false st live = if live ≠ 0 then live else st.compile_time) ∧
    getTime lockOk
        { st with last_sync_time := l2, confidence_window_hours := w2 } live =
      getTime lockOk st live := by
  exact ⟨rfl, rfl, rfl⟩

theorem applyBackoff_ledger (t : BackoffTable) (now : Nat)
    (st : ShipperState) : (applyBackoff t now st).ledger = st.ledger := by
  unfold applyBackoff
  split <;> rfl

theorem applyBackoff_is_connected (t : BackoffTable) (now : Nat)
    (st : ShipperState) :
    (applyBackoff t now st).is_connected = st.is_connected := by
  unfold applyBackoff
  split <;> rfl

theorem applyBackoff_next_retry (t : BackoffTable) (now : Nat)
    (st : ShipperState) :
    (applyBackoff t now st).next_retry_time =
      now + backoffDelay t st.retry_index := by
  unfold applyBackoff backoffDelay
  split
  · rfl
  · rename_i h
    have h0 : st.retry_index ≠ 0 := by omega
    have h1 : st.retry_index ≠ 1 := by omega
    simp [h0, h1]

theorem applyBackoff_retry_index (t : BackoffTable) (now : Nat)
    (st : ShipperState) :
    (applyBackoff t now st).retry_index =
      if st.retry_index < 3 then st.retry_index + 1 else st.retry_index := by
  unfold applyBackoff
  split <;> rename_i h <;> simp [h]

/-- C3: in a delivery cycle (connected, no backoff window pending, oldest
ledger line read and parsed), the oldest record is deleted exactly when the
socket write succeeds *and* a valid `{"ack":1}` line arrives within the
timeout: on ack the record is gone, backoff is reset and the activity time
recorded; on send failure or missing/malformed-only ack the ledger is
byte-identical, backoff advances by the current table delay, and the
connection is forced closed for the next cycle to reconnect. -/
theorem shipper_ack_gated_delete (cfg : ShipperConfig)
    (parseEntry : String → Option (Nat × Nat)) (validAck : String → Bool)
    (hist : List NTPAnchor) (bootSeq : Nat) (env : CycleEnv)
    (st : ShipperState) (e : String) (rest : List String) (b u : Nat)
    (hconn : st.is_connected = true) (hback : st.next_retry_time = 0)
    (hled : st.ledger = e :: rest) (hread : env.readOk = true)
    (hparse : parseEntry e = some (b, u)) :
    ((env.sendOk = true ∧ env.ackLines.any validAck = true) →
      (handleCycle cfg parseEntry validAck hist bootSeq env st).1 =
        { st with ledger := rest, retry_index := 0, next_retry_time := 0,
                  last_send_time := env.now }) ∧
    ((env.sendOk = false ∨ env.ackLines.any validAck = false) →
      (handleCycle cfg parseEntry validAck hist bootSeq env st).1 =
        applyBackoff cfg.tbl env.now { st with is_connected := false } ∧
      (handleCycle cfg parseEntry validAck hist bootSeq env st).1.ledger =
        e :: rest ∧
      (handleCycle cfg parseEntry validAck hist bootSeq env st).1.is_connected
        = false ∧
      (handleCycle cfg parseEntry validAck hist bootSeq env st).1.next_retry_time
        = env.now + backoffDelay cfg.tbl st.retry_index) ∧
    ((handleCycle cfg parseEntry validAck hist bootSeq env st).1.ledger ≠
        e :: rest →
      env.sendOk = true ∧ env.ackLines.any validAck = true) := by
  have hTT : env.sendOk = true → env.ackLines.any validAck = true →
      (handleCycle cfg parseEntry validAck hist bootSeq env st).1 =
        { st with ledger := rest, retry_index := 0, next_retry_time := 0,
                  last_send_time := env.now } := by
    intro hs ha
    simp [handleCycle, hconn, hback, hled, hread, hparse, hs, waitForAck, ha,
      resetBackoff]
  have hFF : env.sendOk = false ∨ env.ackLines.any validAck = false →
      (handleCycle cfg parseEntry validAck hist bootSeq env st).1 =
        applyBackoff cfg.tbl env.now { st with is_connected := false } := by
    rintro (hs | ha)
    · simp [handleCycle, hconn, hback, hled, hread, hparse, hs]
    · by_cases hs : env.sendOk = true
      · simp [handleCycle, hconn, hback, hled, hread, hparse, hs, waitForAck,
          ha]
      · simp only [Bool.not_eq_true] at hs
        simp [handleCycle, hconn, hback, hled, hread, hparse, hs]
  refine ⟨fun h => hTT h.1 h.2, fun h => ?_, fun hne => ?_⟩
  · refine ⟨hFF h, ?_, ?_, ?_⟩
    · rw [hFF h, applyBackoff_ledger]
      exact hled
    · rw [hFF h, applyBackoff_is_connected]
    · rw [hFF h, applyBackoff_next_retry]
  · by_cases hs : env.sendOk = true
    · by_cases ha : env.ackLines.any validAck = true
      · exact ⟨hs, ha⟩
      · exfalso
        apply hne
        rw [hFF (Or.inr (by simpa using ha)), applyBackoff_ledger]
        exact hled
    · exfalso
      apply hne
      rw [hFF (Or.inl (by simpa using hs)), applyBackoff_ledger]
      exact hled

/-- C3, witness: a concrete acknowledged cycle at `now = 50` from retry
index 1 with ledger `["rec", "rec2"]` deletes exactly the oldest line,
resets backoff and records the activity time; the same cycle without a
valid ack leaves the ledger untouched, disconnects and schedules the retry
at `now + 10000` (the second table delay). -/
theorem shipper_ack_gated_delete_witness :
    (handleCycle ⟨defaultBackoffTable, 1000⟩
        (fun s => if s = "rec" then some (5, 100) else none)
        (fun s => s == "okack") [] 5 ⟨50, true, true, true, ["okack"], true, []⟩
        ⟨true, 1, 0, 0, ["rec", "rec2"]⟩).1 =
      ⟨true, 0, 0, 50, ["rec2"]⟩ ∧
    (handleCycle ⟨defaultBackoffTable, 1000⟩
        (fun s => if s = "rec" then some (5, 100) else none)
        (fun s => s == "okack") [] 5 ⟨50, true, true, true, ["garbled"], true, []⟩
        ⟨true, 1, 0, 0, ["rec", "rec2"]⟩).1 =
      ⟨false, 2, 10050, 0, ["rec", "rec2"]⟩ := by
  constructor
  · have h := (shipper_ack_gated_delete ⟨defaultBackoffTable, 1000⟩
      (fun s => if s = "rec" then some (5, 100) else none)
      (fun s => s == "okack") [] 5 ⟨50, true, true, true, ["okack"], true, []⟩
      ⟨true, 1, 0, 0, ["rec", "rec2"]⟩ "rec" ["rec2"] 5 100 rfl rfl rfl rfl
      (by decide)).1 ⟨rfl, by decide⟩
    simpa using h
  · have h := ((shipper_ack_gated_delete ⟨defaultBackoffTable, 1000⟩
      (fun s => if s = "rec" then some (5, 100) else none)
      (fun s => s == "okack") [] 5 ⟨50, true, true, true, ["garbled"], true, []⟩
      ⟨true, 1, 0, 0, ["rec", "rec2"]⟩ "rec" ["rec2"] 5 100 rfl rfl rfl rfl
      (by decide)).2.1 (Or.inr (by decide))).1
    rw [h]
    decide

/-- C4: in a cycle whose oldest ledger line fails to parse (connected, no
backoff pending), the shipper's entire observable outcome is: exactly one
wire send, a diagnostic wrapping the first 100 bytes of the raw line (plus
an ellipsis when longer), the corrupted line deleted, and everything else —
backoff state, connection, activity time — untouched. The equation holds
for every `env.sendOk`/`env.ackLines`, so the outcome does not depend on
the diagnostic's acknowledgment (the code's `waitForAck` result is
discarded); the next cycle starts at the following record. -/
theorem shipper_corrupted_entry_cycle (cfg : ShipperConfig)
    (parseEntry : String → Option (Nat × Nat)) (validAck : String → Bool)
    (hist : List NTPAnchor) (bootSeq : Nat) (env : CycleEnv)
    (st : ShipperState) (e : String) (rest : List String)
    (hconn : st.is_connected = true) (hback : st.next_retry_time = 0)
    (hled : st.ledger = e :: rest) (hread : env.readOk = true)
    (hparse : parseEntry e = none) :
    handleCycle cfg parseEntry validAck hist bootSeq env st =
      ({ st with ledger := rest },
        [WireSend.diagnostic (corruptedMsg e)
          (calculateTimestamp hist bootSeq env.now)]) := by
  simp [handleCycle, hconn, hback, hled, hread, hparse]

/-- C4, witness: a concrete corrupted line of 110 `x`s yields exactly one
diagnostic whose message embeds the first 100 bytes plus `"..."`, the line
is removed, and the cycle outcome ignores the ack lines entirely. -/
theorem shipper_corrupted_entry_cycle_witness :
    handleCycle ⟨defaultBackoffTable, 1000⟩ (fun _ => none)
        (fun s => s == "okack") [] 5 ⟨50, true, true, true, ["anything"], true, []⟩
        ⟨true, 0, 0, 7, [String.mk (List.replicate 110 'x'), "next"]⟩ =
      (⟨true, 0, 0, 7, ["next"]⟩,
        [WireSend.diagnostic
          ("Corrupted log entry detected and skipped: " ++
            String.mk (List.replicate 100 'x') ++ "...") none]) := by
  have h := shipper_corrupted_entry_cycle ⟨defaultBackoffTable, 1000⟩
    (fun _ => none) (fun s => s == "okack") [] 5
    ⟨50, true, true, true, ["anything"], true, []⟩
    ⟨true, 0, 0, 7, [String.mk (List.replicate 110 'x'), "next"]⟩
    (String.mk (List.replicate 110 'x')) ["next"] rfl rfl rfl rfl rfl
  rw [h]
  refine congrArg _ ?_
  refine congrArg (fun m => [WireSend.diagnostic m none]) ?_
  decide

/-- C5, counterexample: with SPIFFS capacity 10 (threshold 8, prune target
4) and a ledger consisting of one 9-byte line, rotation triggers but the
keep-at-least-one-line clamp retains that line, so the post-rotation size
(9) still exceeds the threshold (8). -/
theorem rotation_threshold_counterexample :
    rotationThreshold 10 = 8 ∧
    sumLens [String.mk (List.replicate 9 'a')] = 9 ∧
    checkAndRotateLog 10 [String.mk (List.replicate 9 'a')] =
      [String.mk (List.replicate 9 'a')] ∧
    rotationThreshold 10 <
      sumLens (checkAndRotateLog 10 [String.mk (List.replicate 9 'a')]) := by
  refine ⟨by decide, by decide, by decide, by decide⟩

/-- C5, amended: whenever the ledger size exceeds the 80 %-of-capacity
threshold, rotation retains exactly a trailing subset of the original lines
(most recent records, relative order preserved), and the post-rotation size
is at most half the threshold (the prune target) — except when even a
single line cannot fit, in which case exactly the most recent line is
retained (and may still exceed the threshold). -/
theorem rotation_amended (total : Nat) (lines : List String)
    (hover : rotationThreshold total < sumLens lines)
    (h32 : sumLens lines < 2 ^ 32) :
    checkAndRotateLog total lines <:+ lines ∧
    (sumLens (checkAndRotateLog total lines) ≤ rotationThreshold total / 2 ∨
      ∃ h : lines ≠ [],
        checkAndRotateLog total lines = [lines.getLast h]) := by
  unfold checkAndRotateLog
  rw [if_pos hover]
  have htar : rotationThreshold total / 2 ≤ sumLens lines := by
    have := Nat.div_le_self (rotationThreshold total) 2
    omega
  exact ⟨pruneOldestEntries_suffix _ _,
    pruneOldestEntries_cases _ _ htar h32⟩

/-- C5, witness: capacity 10, ledger `["aaa", "bbb", "ccc"]` (9 bytes > the
8-byte threshold) rotates to the trailing subset `["ccc"]`, 3 bytes ≤ the
4-byte target. -/
theorem rotation_amended_witness :
    checkAndRotateLog 10 ["aaa", "bbb", "ccc"] <:+ ["aaa", "bbb", "ccc"] ∧
    (sumLens (checkAndRotateLog 10 ["aaa", "bbb", "ccc"]) ≤
        rotationThreshold 10 / 2 ∨
      ∃ h : (["aaa", "bbb", "ccc"] : List String) ≠ [],
        checkAndRotateLog 10 ["aaa", "bbb", "ccc"] =
          [(["aaa", "bbb", "ccc"] : List String).getLast h]) :=
  rotation_amended 10 ["aaa", "bbb", "ccc"] (by decide) (by decide)

/-- C10: rotation never empties a non-empty ledger — whatever the prune
target, `pruneOldestEntries` keeps at least the most recent line, thanks to
the `skip_count >= lines.size()` clamp. -/
theorem rotation_never_empties (target : Nat) (lines : List String)
    (h : lines ≠ []) : pruneOldestEntries target lines ≠ [] :=
  pruneOldestEntries_ne_nil target lines h

/-- C10, witness: pruning a one-line ledger to target 0 keeps the line. -/
theorem rotation_never_empties_witness :
    pruneOldestEntries 0 ["solitary"] ≠ [] :=
  rotation_never_empties 0 ["solitary"] (by decide)

set_option maxRecDepth 100000 in
/-- C6, counterexample: an *error-level* call whose formatted message is 513
bytes long is truncated but produces no follow-up record at all — the
`truncated && strcmp(level, "error") != 0` guard exempts every error-level
message, not just the specific follow-up record, so the claim's "every
logging call (any level)" fails at level `"error"`. -/
theorem truncation_followup_counterexample :
    MAX_MESSAGE_SIZE < (String.mk (List.replicate 513 'a')).length ∧
    ((logCall ⟨7, 0, []⟩ ⟨⟨0, true, 0⟩, ⟨0, true, 0⟩⟩ "error"
        (String.mk (List.replicate 513 'a'))).2).map LogRecord.level =
      ["error"] ∧
    ((logCall ⟨7, 0, []⟩ ⟨⟨0, true, 0⟩, ⟨0, true, 0⟩⟩ "error"
        (String.mk (List.replicate 513 'a'))).2).length = 1 := by
  refine ⟨by decide, by decide, by decide⟩

/-- C6, amended: a logging call whose formatted message exceeds 512 bytes
stores the first 512 bytes; when the call's level is not `"error"` it
writes exactly one follow-up error record describing the truncation (the
length and a 60-byte sample), while an error-level call writes no follow-up
— which is precisely the mechanism exempting the follow-up itself (an
error-level record) from re-triggering truncation handling: every
error-level call writes exactly one record. -/
theorem truncation_followup_amended (st : LoggerState) (env : LogEnv)
    (level msg : String) (htr : MAX_MESSAGE_SIZE < msg.length)
    (hok1 : env.main.appendOk = true) (hok2 : env.followup.appendOk = true) :
    ((logCall st env level msg).2.head?.map LogRecord.msg =
        some (strTake msg MAX_MESSAGE_SIZE) ∧
      (strTake msg MAX_MESSAGE_SIZE).length = MAX_MESSAGE_SIZE) ∧
    (level ≠ "error" →
      (logCall st env level msg).2 =
        [⟨st.boot_seq, env.main.now, st.entry_seq, level,
            strTake msg MAX_MESSAGE_SIZE⟩,
          ⟨st.boot_seq, env.followup.now, st.entry_seq + 1, "error",
            strTake (truncFollowupMsg msg.length (strTake msg MAX_MESSAGE_SIZE))
              MAX_MESSAGE_SIZE⟩]) ∧
    (level = "error" →
      (logCall st env level msg).2 =
        [⟨st.boot_seq, env.main.now, st.entry_seq, "error",
            strTake msg MAX_MESSAGE_SIZE⟩]) ∧
    (∀ (st2 : LoggerState) (env2 : LogEnv) (msg2 : String),
      env2.main.appendOk = true →
      ((logCall st2 env2 "error" msg2).2).length = 1) := by
  refine ⟨⟨?_, ?_⟩, ?_, ?_, ?_⟩
  · by_cases hl : level = "error"
    · simp [logCall, hl, emitRecord, hok1]
    · simp [logCall, hl, emitRecord, hok1, hok2, Nat.le_of_lt htr]
  · rw [strTake_length]
    unfold MAX_MESSAGE_SIZE at htr ⊢
    omega
  · intro hl
    simp [logCall, hl, emitRecord, hok1, hok2, Nat.le_of_lt htr]
  · intro hl
    simp [logCall, hl, emitRecord, hok1]
  · intro st2 env2 msg2 hok
    by_cases hg : MAX_MESSAGE_SIZE ≤ msg2.length
    · simp [logCall, hg, emitRecord, hok]
    · simp [logCall, hg, emitRecord, hok]

set_option maxRecDepth 100000 in
/-- C6, witness: an info-level 513-byte message yields the truncated main
record plus exactly one error-level follow-up; the follow-up's own
error-level call shape writes exactly one record. -/
theorem truncation_followup_amended_witness :
    ((logCall ⟨7, 3, []⟩ ⟨⟨11, true, 0⟩, ⟨12, true, 0⟩⟩ "info"
        (String.mk (List.replicate 513 'a'))).2).length = 2 ∧
    ((logCall ⟨7, 3, []⟩ ⟨⟨11, true, 0⟩, ⟨12, true, 0⟩⟩ "info"
        (String.mk (List.replicate 513 'a'))).2).map LogRecord.level =
      ["info", "error"] := by
  have h := truncation_followup_amended ⟨7, 3, []⟩ ⟨⟨11, true, 0⟩, ⟨12, true, 0⟩⟩
    "info" (String.mk (List.replicate 513 'a')) (by decide) rfl rfl
  have h2 := h.2.1 (by decide)
  rw [h2]
  exact ⟨rfl, rfl⟩

theorem iterate_applyBackoff_retry_index (tbl : BackoffTable) (now : Nat)
    (st : ShipperState) (n : Nat) :
    ((applyBackoff tbl now)^[n] (resetBackoff st)).retry_index = min n 3 := by
  induction n with
  | zero => simp [resetBackoff]
  | succ n ih =>
    rw [Function.iterate_succ_apply', applyBackoff_retry_index, ih]
    simp only [Nat.min_def]
    split_ifs <;> omega

/-- C7: starting from a reset backoff state, the `k`-th consecutive failure
schedules the delay at table index `min (k-1) 2` — the first three failures
walk the full table `b0, b1, b2` and every later failure holds at the last
entry `b2` — while the retry index advances by one per failure up to its
cap; one `resetBackoff` (performed on any success) makes the next failure
use the first delay again; the default table is the ascending
`5000, 10000, 30000` ms. -/
theorem backoff_progression (tbl : BackoffTable) (now : Nat)
    (st st2 : ShipperState) :
    (∀ n, ((applyBackoff tbl now)^[n] (resetBackoff st)).retry_index =
      min n 3) ∧
    (∀ n, ((applyBackoff tbl now)^[n + 1] (resetBackoff st)).next_retry_time =
      now + backoffDelay tbl (min n 2)) ∧
    ((applyBackoff tbl now)^[3] (resetBackoff st)).next_retry_time =
      now + tbl.b2 ∧
    ((applyBackoff tbl now (resetBackoff st2)).next_retry_time =
      now + tbl.b0) ∧
    (defaultBackoffTable.b0 < defaultBackoffTable.b1 ∧
      defaultBackoffTable.b1 < defaultBackoffTable.b2) := by
  refine ⟨iterate_applyBackoff_retry_index tbl now st, ?_, ?_, ?_, by decide⟩
  · intro n
    rw [Function.iterate_succ_apply', applyBackoff_next_retry,
      iterate_applyBackoff_retry_index]
    congr 1
    rcases n with _ | _ | n
    · rfl
    · rfl
    · have h2 : min (n + 2) 2 = 2 := by omega
      have h3 : min (n + 2) 3 = n + 2 ∨ min (n + 2) 3 = 3 := by omega
      rw [h2]
      rcases h3 with h3 | h3 <;> rw [h3] <;> unfold backoffDelay <;>
        split_ifs <;> first | rfl | omega
  · rw [Function.iterate_succ_apply', applyBackoff_next_retry,
      iterate_applyBackoff_retry_index]
    rfl
  · rw [applyBackoff_next_retry]
    simp [resetBackoff, backoffDelay]

/-- The ledger under any mix of store operations stays a suffix of the
original records followed by the appended ones: front-only removal, no
reordering, no duplication, no mutation of live records. -/
theorem runOps_suffix :
    ∀ (ops : List StoreOp) (l h : List LogRecord), l <:+ h →
      runOps l ops <:+ h ++ appendedRecords ops
  | [], l, h, hs => by simpa [runOps, appendedRecords] using hs
  | StoreOp.append r :: rest, l, h, hs => by
    have step := runOps_suffix rest (l ++ [r]) (h ++ [r])
      (suffix_append_same [r] hs)
    simp only [runOps, List.foldl_cons, applyOp] at step ⊢
    simp only [appendedRecords, List.filterMap_cons] at step ⊢
    simpa [List.append_assoc] using step
  | StoreOp.deleteFirst :: rest, l, h, hs => by
    have step := runOps_suffix rest l.tail h
      ((List.tail_suffix l).trans hs)
    simp only [runOps, List.foldl_cons, applyOp] at step ⊢
    simpa [appendedRecords, List.filterMap_cons] using step
  | StoreOp.prune k :: rest, l, h, hs => by
    have step := runOps_suffix rest (l.drop k) h
      ((List.drop_suffix k l).trans hs)
    simp only [runOps, List.foldl_cons, applyOp] at step ⊢
    simpa [appendedRecords, List.filterMap_cons] using step

/-- C8: across any burst of `Logger::log` calls, the records written carry
the current boot generation and strictly increasing fresh sequence numbers
(hence pairwise distinct `(boot_generation, seq)` pairs), and the resulting
ledger is a suffix of the original ledger followed by the written records —
so the store only ever appends at the end and removes from the front, never
reordering, duplicating or mutating a live record; the same suffix shape
holds for any mix of append / delete-oldest / prune operations. -/
theorem sequencing_immutability (st : LoggerState)
    (calls : List (LogEnv × String × String)) (ops : List StoreOp) :
    ((runLogs st calls).1.ledger <:+ st.ledger ++ (runLogs st calls).2) ∧
    ((runLogs st calls).1.boot_seq = st.boot_seq) ∧
    List.Pairwise (fun r s => r.seq < s.seq) (runLogs st calls).2 ∧
    (∀ r ∈ (runLogs st calls).2,
      r.boot_seq = st.boot_seq ∧ st.entry_seq ≤ r.seq) ∧
    List.Pairwise (fun r s => (r.boot_seq, r.seq) ≠ (s.boot_seq, s.seq))
      (runLogs st calls).2 ∧
    (runOps st.ledger ops <:+ st.ledger ++ appendedRecords ops) := by
  obtain ⟨hb, he, hs, hp, hr⟩ := runLogs_evolution st calls
  refine ⟨hs, hb, hp, fun r h => ⟨(hr r h).1, (hr r h).2.1⟩, ?_,
    runOps_suffix ops st.ledger st.ledger List.suffix_rfl⟩
  refine hp.imp ?_
  intro r s hlt hpair
  have : r.seq = s.seq := congrArg Prod.snd hpair
  omega

/-- C9: the synchronization-anchor store keeps at most one entry per boot
generation (a re-sync of a present generation rewrites its entry in place,
leaving the generation sequence unchanged; a new generation is appended at
the end), eviction past the configured maximum removes only oldest entries
(the result is a suffix of the upserted list, so insertion order is
preserved), and the stored list never exceeds the maximum. -/
theorem anchor_store_invariants (max : Nat) (hist : List NTPAnchor) (b : Nat)
    (t : Int) (u : Nat) :
    ((hist.map NTPAnchor.boot_seq).Nodup →
      ((updateNTPHistory max hist b t u).map NTPAnchor.boot_seq).Nodup) ∧
    (b ∈ hist.map NTPAnchor.boot_seq →
      (upsertBoot hist b t u).map NTPAnchor.boot_seq =
        hist.map NTPAnchor.boot_seq) ∧
    (b ∉ hist.map NTPAnchor.boot_seq →
      upsertBoot hist b t u = hist ++ [⟨b, t, u⟩]) ∧
    (updateNTPHistory max hist b t u <:+ upsertBoot hist b t u) ∧
    (updateNTPHistory max hist b t u).length ≤ max := by
  refine ⟨?_, upsertBoot_mem hist b t u, upsertBoot_not_mem hist b t u,
    List.drop_suffix _ _, ?_⟩
  · intro hnd
    have h1 := upsertBoot_nodup hist b t u hnd
    unfold updateNTPHistory dropToMax
    refine List.Nodup.sublist ?_ h1
    rw [List.map_drop]
    exact List.drop_sublist _ _
  · unfold updateNTPHistory dropToMax
    rw [List.length_drop]
    omega

/-- C9, witness: with maximum 2, upserting generation 3 into the
insertion-ordered store `[(1,·,·), (2,·,·)]` appends it at the end and
evicts the oldest entry, leaving the distinct, bounded `[(2,·,·), (3,·,·)]`;
re-syncing generation 2 rewrites in place. -/
theorem anchor_store_invariants_witness :
    ((updateNTPHistory 2 [⟨1, 10, 5⟩, ⟨2, 20, 6⟩] 3 30 7).map
      NTPAnchor.boot_seq).Nodup ∧
    upsertBoot [⟨1, 10, 5⟩, ⟨2, 20, 6⟩] 3 30 7 =
      [⟨1, 10, 5⟩, ⟨2, 20, 6⟩, ⟨3, 30, 7⟩] ∧
    (upsertBoot [⟨1, 10, 5⟩, ⟨2, 20, 6⟩] 2 25 9).map NTPAnchor.boot_seq =
      ([⟨1, 10, 5⟩, ⟨2, 20, 6⟩] : List NTPAnchor).map NTPAnchor.boot_seq ∧
    (updateNTPHistory 2 [⟨1, 10, 5⟩, ⟨2, 20, 6⟩] 3 30 7).length ≤ 2 := by
  have h3 := anchor_store_invariants 2 [⟨1, 10, 5⟩, ⟨2, 20, 6⟩] 3 30 7
  have h2 := anchor_store_invariants 2 [⟨1, 10, 5⟩, ⟨2, 20, 6⟩] 2 25 9
  exact ⟨h3.1 (by decide), h3.2.2.1 (by decide), h2.2.1 (by decide),
    h3.2.2.2.2⟩

end Hydromatic
